import Mathlib

/-!
Verification of SheetEase (ExcelExportTool): a shallow embedding of the
type-directed conversion and validation pipeline, translated from the Python
sources under ExcelExportTool/, together with theorems settling the frozen
claims about the spec.

Conventions of the embedding:
* Excel cell values and JSON values are modelled by the inductive `Val`
  (None, int, bool, str, list, dict).  Floats do not occur in any claim and
  are not modelled.
* Python exceptions are modelled by `Except`; `log_warn` / `log_error`
  output is modelled as explicit lists of events or messages.
* Python `str.strip` is modelled over the ASCII whitespace characters
  (unicode whitespace does not occur in the inputs of any claim).
* Python `int(x)` is modelled for plain decimal literals with an optional
  sign (underscore digit separators do not occur in any claim).
-/

namespace SheetEase

/-- The whitespace characters recognised by Python `str.strip` / `\s`
(ASCII subset). -/
def isPySpace (c : Char) : Bool :=
  c = ' ' || c = '\t' || c = '\n' || c = '\r' || c = '\x0b' || c = '\x0c'

/-- Strip `isPySpace` characters from both ends of a character list. -/
def stripChars (cs : List Char) : List Char :=
  ((cs.dropWhile isPySpace).reverse.dropWhile isPySpace).reverse

/-- Model of Python `str.strip()`. -/
def pyStrip (s : String) : String := String.mk (stripChars s.data)

/-- Model of a Python value as read from an Excel cell or a JSON record:
None, int, bool, str, list or dict. -/
inductive Val where
  | vnone : Val
  | vint : Int → Val
  | vbool : Bool → Val
  | vstr : String → Val
  | vlist : List Val → Val
  | vdict : List (Val × Val) → Val
deriving Repr

mutual

/-- Decidable equality for `Val` (deriving does not handle the nested
occurrences, so it is spelled out). -/
def Val.decEq : (a b : Val) → Decidable (a = b)
  | .vnone, .vnone => isTrue rfl
  | .vint a, .vint b =>
    if h : a = b then isTrue (by rw [h]) else isFalse (fun he => h (by cases he; rfl))
  | .vbool a, .vbool b =>
    if h : a = b then isTrue (by rw [h]) else isFalse (fun he => h (by cases he; rfl))
  | .vstr a, .vstr b =>
    if h : a = b then isTrue (by rw [h]) else isFalse (fun he => h (by cases he; rfl))
  | .vlist xs, .vlist ys =>
    match Val.decEqList xs ys with
    | isTrue h => isTrue (by rw [h])
    | isFalse h => isFalse (fun he => h (by cases he; rfl))
  | .vdict xs, .vdict ys =>
    match Val.decEqDict xs ys with
    | isTrue h => isTrue (by rw [h])
    | isFalse h => isFalse (fun he => h (by cases he; rfl))
  | .vnone, .vint _ => isFalse (fun h => by cases h)
  | .vnone, .vbool _ => isFalse (fun h => by cases h)
  | .vnone, .vstr _ => isFalse (fun h => by cases h)
  | .vnone, .vlist _ => isFalse (fun h => by cases h)
  | .vnone, .vdict _ => isFalse (fun h => by cases h)
  | .vint _, .vnone => isFalse (fun h => by cases h)
  | .vint _, .vbool _ => isFalse (fun h => by cases h)
  | .vint _, .vstr _ => isFalse (fun h => by cases h)
  | .vint _, .vlist _ => isFalse (fun h => by cases h)
  | .vint _, .vdict _ => isFalse (fun h => by cases h)
  | .vbool _, .vnone => isFalse (fun h => by cases h)
  | .vbool _, .vint _ => isFalse (fun h => by cases h)
  | .vbool _, .vstr _ => isFalse (fun h => by cases h)
  | .vbool _, .vlist _ => isFalse (fun h => by cases h)
  | .vbool _, .vdict _ => isFalse (fun h => by cases h)
  | .vstr _, .vnone => isFalse (fun h => by cases h)
  | .vstr _, .vint _ => isFalse (fun h => by cases h)
  | .vstr _, .vbool _ => isFalse (fun h => by cases h)
  | .vstr _, .vlist _ => isFalse (fun h => by cases h)
  | .vstr _, .vdict _ => isFalse (fun h => by cases h)
  | .vlist _, .vnone => isFalse (fun h => by cases h)
  | .vlist _, .vint _ => isFalse (fun h => by cases h)
  | .vlist _, .vbool _ => isFalse (fun h => by cases h)
  | .vlist _, .vstr _ => isFalse (fun h => by cases h)
  | .vlist _, .vdict _ => isFalse (fun h => by cases h)
  | .vdict _, .vnone => isFalse (fun h => by cases h)
  | .vdict _, .vint _ => isFalse (fun h => by cases h)
  | .vdict _, .vbool _ => isFalse (fun h => by cases h)
  | .vdict _, .vstr _ => isFalse (fun h => by cases h)
  | .vdict _, .vlist _ => isFalse (fun h => by cases h)

def Val.decEqList : (a b : List Val) → Decidable (a = b)
  | [], [] => isTrue rfl
  | [], _ :: _ => isFalse (fun h => by cases h)
  | _ :: _, [] => isFalse (fun h => by cases h)
  | x :: xs, y :: ys =>
    match Val.decEq x y, Val.decEqList xs ys with
    | isTrue h1, isTrue h2 => isTrue (by rw [h1, h2])
    | isFalse h1, _ => isFalse (fun he => h1 (by cases he; rfl))
    | isTrue _, isFalse h2 => isFalse (fun he => h2 (by cases he; rfl))

def Val.decEqDict : (a b : List (Val × Val)) → Decidable (a = b)
  | [], [] => isTrue rfl
  | [], _ :: _ => isFalse (fun h => by cases h)
  | _ :: _, [] => isFalse (fun h => by cases h)
  | (k, v) :: xs, (k', v') :: ys =>
    match Val.decEq k k', Val.decEq v v', Val.decEqDict xs ys with
    | isTrue h1, isTrue h2, isTrue h3 => isTrue (by rw [h1, h2, h3])
    | isFalse h1, _, _ => isFalse (fun he => h1 (by cases he; rfl))
    | isTrue _, isFalse h2, _ => isFalse (fun he => h2 (by cases he; rfl))
    | isTrue _, isTrue _, isFalse h3 => isFalse (fun he => h3 (by cases he; rfl))

end

instance : DecidableEq Val := Val.decEq

instance {ε α : Type} [DecidableEq ε] [DecidableEq α] : DecidableEq (Except ε α) := fun a b =>
  match a, b with
  | .ok x, .ok y =>
    if h : x = y then isTrue (by rw [h]) else isFalse (fun he => h (by cases he; rfl))
  | .error x, .error y =>
    if h : x = y then isTrue (by rw [h]) else isFalse (fun he => h (by cases he; rfl))
  | .ok _, .error _ => isFalse (fun h => by cases h)
  | .error _, .ok _ => isFalse (fun h => by cases h)

/-- Model of Python `str(x)` on `Val`.  The list/dict branches return
placeholders: no claim applies `str` to a container. -/
def pyStr : Val → String
  | .vnone => "None"
  | .vint i => toString i
  | .vbool b => if b then "True" else "False"
  | .vstr s => s
  | .vlist _ => "<list>"
  | .vdict _ => "<dict>"

/-- Parse a non-empty all-digit character list as a natural number. -/
def digitsToNat? (cs : List Char) : Option Nat :=
  if cs = [] then none
  else if cs.all Char.isDigit then
    some (cs.foldl (fun n c => 10 * n + (c.toNat - Char.toNat '0')) 0)
  else none

/-- Model of Python `int(s)` for a string: optional surrounding whitespace,
optional sign, decimal digits. -/
def pyIntOfStr (s : String) : Option Int :=
  match stripChars s.data with
  | '+' :: rest => (digitsToNat? rest).map Int.ofNat
  | '-' :: rest => (digitsToNat? rest).map (fun n => -(n : Int))
  | cs => (digitsToNat? cs).map Int.ofNat

/-- Model of Python `int(x)` on `Val`: ints pass through, bools become 0/1,
strings are parsed, anything else raises (None). -/
def pyInt : Val → Option Int
  | .vint i => some i
  | .vbool b => some (if b then 1 else 0)
  | .vstr s => pyIntOfStr s
  | _ => none

/-- Modelled from the spec: utils/naming_utils.py (is_valid_csharp_identifier)
is not under src/.  The spec defines a valid identifier as letters, digits and
underscore, not starting with a digit; this agrees with the regex in
available_csharp_enum_name in data_processing.py. -/
def is_valid_csharp_ident (s : String) : Bool :=
  match s.data with
  | [] => false
  | c :: rest => (c.isAlpha || c = '_') && rest.all (fun d => d.isAlphanum || d = '_')

/-! ## Composite primary keys (core/worksheet_data.py)

`WorksheetData.MAX_KEY2 = 46340`, `MULTIPLIER = MAX_KEY2`; in
`generate_json` a CompositeKey row computes
`row_key = k1 * MULTIPLIER + k2` after the range check
`0 <= k1 < MAX_KEY2 and 0 <= k2 < MAX_KEY2`, and raises
`CompositeKeyOverflowError` when `row_key >= 2**31`. -/

def MAX_KEY2 : Int := 46340

def MULTIPLIER : Int := MAX_KEY2

/-- The combined-key computation `k1 * MULTIPLIER + k2` from
`WorksheetData.generate_json`. -/
def combinedKey (k1 k2 : Int) : Int := k1 * MULTIPLIER + k2

/-- Errors of the composite-key branch of `generate_json`. -/
inductive RowKeyErr where
  | parseError : RowKeyErr
  | rangeError : RowKeyErr
  | overflow : Int → RowKeyErr
deriving Repr, DecidableEq

/-- The composite-key branch of `WorksheetData.generate_json` for one data
row: parse `int(row[0].value)` and `int(row[1].value)`, range-check both
against `MAX_KEY2`, combine, and reject a combined key `≥ 2^31`. -/
def compositeRowKey (k1v k2v : Val) : Except RowKeyErr Int :=
  match pyInt k1v, pyInt k2v with
  | some k1, some k2 =>
    if 0 ≤ k1 ∧ k1 < MAX_KEY2 ∧ 0 ≤ k2 ∧ k2 < MAX_KEY2 then
      let row_key := combinedKey k1 k2
      if row_key ≥ 2 ^ 31 then .error (.overflow row_key) else .ok row_key
    else .error .rangeError
  | _, _ => .error .parseError

end SheetEase

namespace SheetEase

/-- C1 (counterexample): the claim says the row with k1 = 46339, k2 = 46339
must fail export; in fact `generate_json` accepts it, because
46339 * 46340 + 46339 = 2147395599 < 2^31, so the overflow branch is not
taken. -/
theorem compositeRowKey_max_pair_ok :
    compositeRowKey (Val.vint 46339) (Val.vint 46339) = .ok 2147395599 := by
  decide

/-- C1 (amended): for every data row with 0 ≤ k1 < 46340 and 0 ≤ k2 < 46340,
the combined key k1 * 46340 + k2 is strictly below 2^31, so `generate_json`
never rejects an in-range row for overflow: it returns the combined key. -/
theorem compositeRowKey_in_range_ok (k1 k2 : Int)
    (h1 : 0 ≤ k1) (h2 : k1 < MAX_KEY2) (h3 : 0 ≤ k2) (h4 : k2 < MAX_KEY2) :
    compositeRowKey (Val.vint k1) (Val.vint k2) = .ok (combinedKey k1 k2) ∧
      combinedKey k1 k2 < 2 ^ 31 := by
  have hmax : MAX_KEY2 = (46340 : Int) := rfl
  have hb : combinedKey k1 k2 < 2 ^ 31 := by
    have hk1 : k1 ≤ 46339 := by omega
    have hmul : k1 * 46340 ≤ 46339 * 46340 :=
      mul_le_mul_of_nonneg_right hk1 (by norm_num)
    have : combinedKey k1 k2 ≤ 46339 * 46340 + k2 := by
      simp only [combinedKey, MULTIPLIER, hmax]
      omega
    omega
  refine ⟨?_, hb⟩
  simp only [compositeRowKey, pyInt]
  rw [if_pos ⟨h1, h2, h3, h4⟩]
  simp only [if_neg (not_le.mpr hb)]

/-- C1 (witness for the amended theorem at a concrete input). -/
theorem compositeRowKey_in_range_ok_witness :
    compositeRowKey (Val.vint 3) (Val.vint 5) = .ok (combinedKey 3 5) ∧
      combinedKey 3 5 < 2 ^ 31 :=
  compositeRowKey_in_range_ok 3 5 (by decide) (by decide) (by decide) (by decide)

/-- C8: the composite key combination `combined(k1, k2) = k1 * 46340 + k2`
is injective on 0 ≤ k1, k2 < 46340: distinct pairs give distinct keys. -/
theorem combinedKey_injective (k1 k2 k1' k2' : Int)
    (h1 : 0 ≤ k1) (h2 : k1 < MAX_KEY2) (h3 : 0 ≤ k2) (h4 : k2 < MAX_KEY2)
    (h5 : 0 ≤ k1') (h6 : k1' < MAX_KEY2) (h7 : 0 ≤ k2') (h8 : k2' < MAX_KEY2)
    (heq : combinedKey k1 k2 = combinedKey k1' k2') : k1 = k1' ∧ k2 = k2' := by
  have hmax : MAX_KEY2 = (46340 : Int) := rfl
  rw [hmax] at h2 h4 h6 h8
  have heq' : k1 * 46340 + k2 = k1' * 46340 + k2' := by
    simpa [combinedKey, MULTIPLIER, hmax] using heq
  have hk : k1 = k1' := by
    rcases lt_trichotomy k1 k1' with hlt | he | hgt
    · exfalso
      have : k1 + 1 ≤ k1' := by omega
      have := mul_le_mul_of_nonneg_right this (by norm_num : (0:Int) ≤ 46340)
      omega
    · exact he
    · exfalso
      have : k1' + 1 ≤ k1 := by omega
      have := mul_le_mul_of_nonneg_right this (by norm_num : (0:Int) ≤ 46340)
      omega
  exact ⟨hk, by omega⟩

/-- C8 (witness at a concrete input). -/
theorem combinedKey_injective_witness : (5 : Int) = 5 ∧ (7 : Int) = 7 :=
  combinedKey_injective 5 7 5 7 (by decide) (by decide) (by decide) (by decide)
    (by decide) (by decide) (by decide) (by decide) rfl

/-! ## Header construction (core/worksheet_data.py, WorksheetData.__init__)

The constructor reads rows 1..6 into `cell_values`, raises
`HeaderFormatError` when a row is missing/empty, when the field row is
empty, or when any row length differs from the field-row length, and only
then runs the warn-and-auto-align `_align_list` step on the other five
rows. -/

/-- The six header rows of a worksheet (rows 1..6: remarks, headers,
data_types, data_labels, field_names, default_values). -/
structure HeaderRows where
  remarks : List Val
  headers : List Val
  data_types : List Val
  data_labels : List Val
  field_names : List Val
  default_values : List Val
deriving Repr, DecidableEq

/-- The rows in the order the constructor iterates them (i = 1..6). -/
def HeaderRows.rowsInOrder (h : HeaderRows) : List (List Val) :=
  [h.remarks, h.headers, h.data_types, h.data_labels, h.field_names, h.default_values]

/-- `HeaderFormatError` cases raised by the constructor. -/
inductive HeaderErr where
  | rowMissingOrEmpty : Nat → HeaderErr
  | emptyFieldRow : HeaderErr
  | lengthMismatch : Nat → Nat → Nat → HeaderErr
deriving Repr, DecidableEq

/-- First loop of the constructor: row i missing or empty raises. -/
def checkRowsNonempty : Nat → List (List Val) → Except HeaderErr Unit
  | _, [] => .ok ()
  | i, row :: rest =>
    if row.length = 0 then .error (.rowMissingOrEmpty i)
    else checkRowsNonempty (i + 1) rest

/-- Second loop of the constructor: row i of a different length than the
field row raises. -/
def checkRowLengths (nFields : Nat) : Nat → List (List Val) → Except HeaderErr Unit
  | _, [] => .ok ()
  | i, row :: rest =>
    if row.length ≠ nFields then .error (.lengthMismatch i row.length nFields)
    else checkRowLengths nFields (i + 1) rest

/-- `_align_list`: pad a short row with None, truncate a long one; the
boolean records whether a warning was logged. -/
def alignList (lst : List Val) (target : Nat) : List Val × Bool :=
  if lst.length = target then (lst, false)
  else if lst.length < target then
    (lst ++ List.replicate (target - lst.length) Val.vnone, true)
  else (lst.take target, true)

/-- The header-handling prefix of `WorksheetData.__init__`: strict
emptiness and length checks, then the auto-align step.  Returns the
(aligned) header rows and how many align warnings were logged. -/
def buildHeader (h : HeaderRows) : Except HeaderErr (HeaderRows × Nat) :=
  match checkRowsNonempty 1 h.rowsInOrder with
  | .error e => .error e
  | .ok () =>
    let nFields := h.field_names.length
    if nFields = 0 then .error .emptyFieldRow
    else
      match checkRowLengths nFields 1 h.rowsInOrder with
      | .error e => .error e
      | .ok () =>
        let (remarks', w1) := alignList h.remarks nFields
        let (headers', w2) := alignList h.headers nFields
        let (data_types', w3) := alignList h.data_types nFields
        let (data_labels', w4) := alignList h.data_labels nFields
        let (default_values', w5) := alignList h.default_values nFields
        .ok ({ remarks := remarks', headers := headers', data_types := data_types',
               data_labels := data_labels', field_names := h.field_names,
               default_values := default_values' },
             [w1, w2, w3, w4, w5].count true)

/-- A concrete worksheet header whose six rows are all non-empty but of
unequal lengths (field row has 2 columns, the others 1). -/
def headerEx : HeaderRows :=
  { remarks := [Val.vstr "r"], headers := [Val.vstr "h"],
    data_types := [Val.vstr "int"], data_labels := [Val.vstr "x"],
    field_names := [Val.vstr "id", Val.vstr "f"],
    default_values := [Val.vnone] }

/-- C2 (counterexample): on `headerEx` (six non-empty rows, unequal
lengths) schema construction does not succeed with padding warnings; it
raises `HeaderFormatError` at the first mismatched row.  The auto-align
step is unreachable for unequal lengths. -/
theorem buildHeader_unequal_fails :
    buildHeader headerEx = .error (.lengthMismatch 1 1 2) := by decide

/-- C2 (amended): header rows that are non-empty but of unequal lengths
make schema construction fail with a `HeaderFormatError` length-mismatch
error; the pad/truncate auto-align step only runs once all six rows
already have the field-row length, and is then a no-op producing zero
warnings. -/
theorem buildHeader_spec (h : HeaderRows)
    (hne : ∀ r ∈ h.rowsInOrder, r ≠ []) :
    ((∀ r ∈ h.rowsInOrder, r.length = h.field_names.length) →
        buildHeader h = .ok (h, 0)) ∧
    ((∃ r ∈ h.rowsInOrder, r.length ≠ h.field_names.length) →
        ∃ i len, buildHeader h = .error (.lengthMismatch i len h.field_names.length)) := by
  have hnonempty : ∀ (i : Nat) (rows : List (List Val)),
      (∀ r ∈ rows, r ≠ []) → checkRowsNonempty i rows = .ok () := by
    intro i rows
    induction rows generalizing i with
    | nil => intro _; rfl
    | cons row rest ih =>
      intro hr
      have h0 : row ≠ [] := hr row (by simp)
      have : ¬ row.length = 0 := by simpa using h0
      simp only [checkRowsNonempty, if_neg this]
      exact ih (i + 1) (fun r hrmem => hr r (by simp [hrmem]))
  have hlen_ok : ∀ (n : Nat) (i : Nat) (rows : List (List Val)),
      (∀ r ∈ rows, r.length = n) → checkRowLengths n i rows = .ok () := by
    intro n i rows
    induction rows generalizing i with
    | nil => intro _; rfl
    | cons row rest ih =>
      intro hr
      have h0 : row.length = n := hr row (by simp)
      simp only [checkRowLengths, h0, ne_eq, not_true_eq_false, if_false, if_neg]
      exact ih (i + 1) (fun r hrmem => hr r (by simp [hrmem]))
  have hlen_err : ∀ (n : Nat) (i : Nat) (rows : List (List Val)),
      (∃ r ∈ rows, r.length ≠ n) →
        ∃ j len, checkRowLengths n i rows = .error (.lengthMismatch j len n) := by
    intro n i rows
    induction rows generalizing i with
    | nil => rintro ⟨r, hr, _⟩; cases hr
    | cons row rest ih =>
      rintro ⟨r, hr, hrn⟩
      by_cases hrow : row.length = n
      · have hmem : r ∈ rest := by
          rcases List.mem_cons.mp hr with h | h
          · exact absurd (h ▸ hrow) hrn
          · exact h
        obtain ⟨j, len, hj⟩ := ih (i + 1) ⟨r, hmem, hrn⟩
        refine ⟨j, len, ?_⟩
        simpa [checkRowLengths, hrow] using hj
      · exact ⟨i, row.length, by simp [checkRowLengths, hrow]⟩
  refine ⟨?_, ?_⟩
  · intro hall
    have hnf : h.field_names.length ≠ 0 := by
      have := hne h.field_names (by simp [HeaderRows.rowsInOrder])
      simpa using this
    have h1 := hnonempty 1 h.rowsInOrder hne
    have h2 := hlen_ok h.field_names.length 1 h.rowsInOrder hall
    have hr : h.remarks.length = h.field_names.length :=
      hall h.remarks (by simp [HeaderRows.rowsInOrder])
    have hh : h.headers.length = h.field_names.length :=
      hall h.headers (by simp [HeaderRows.rowsInOrder])
    have ht : h.data_types.length = h.field_names.length :=
      hall h.data_types (by simp [HeaderRows.rowsInOrder])
    have hl : h.data_labels.length = h.field_names.length :=
      hall h.data_labels (by simp [HeaderRows.rowsInOrder])
    have hd : h.default_values.length = h.field_names.length :=
      hall h.default_values (by simp [HeaderRows.rowsInOrder])
    simp only [buildHeader, h1, h2, if_neg hnf, alignList, hr, hh, ht, hl, hd,
      if_pos rfl, List.count]
    rfl
  · intro hex
    have hnf : h.field_names.length ≠ 0 := by
      have := hne h.field_names (by simp [HeaderRows.rowsInOrder])
      simpa using this
    have h1 := hnonempty 1 h.rowsInOrder hne
    obtain ⟨j, len, hj⟩ := hlen_err h.field_names.length 1 h.rowsInOrder hex
    have hnf' : h.field_names ≠ [] := by simpa using hnf
    exact ⟨j, len, by simp [buildHeader, h1, hj, hnf']⟩

/-- C2 (witness for the amended theorem at a concrete input: a header with
all-equal row lengths builds successfully with zero align warnings). -/
theorem buildHeader_spec_witness :
    buildHeader { remarks := [Val.vnone], headers := [Val.vstr "h"],
                  data_types := [Val.vstr "int"], data_labels := [Val.vstr "x"],
                  field_names := [Val.vstr "id"], default_values := [Val.vnone] } =
      .ok ({ remarks := [Val.vnone], headers := [Val.vstr "h"],
             data_types := [Val.vstr "int"], data_labels := [Val.vstr "x"],
             field_names := [Val.vstr "id"], default_values := [Val.vnone] }, 0) :=
  (buildHeader_spec _ (by decide)).1 (by decide)

/-! ## Numeric range policies for C# int

Two variants of `_check_csharp_primitive_range` coexist:
* parsing/data_processing.py (lenient): an out-of-range int produces a
  `log_warn` and the value is kept;
* data_processing.py (strict): an out-of-range int raises `ValueError`
  (the range error is re-raised by its own except-handler under the
  cannot-convert message — either way a hard error).
Both are entered through `_convert_primitive`, which first applies
Python `int()` to the raw value (None becomes `int(0)`). -/

/-- Warnings logged by the lenient int range check for converted value
`ival` (the conversion itself already succeeded, so only the range branch
can fire). -/
def intRangeWarnings (ival : Int) : List String :=
  if ival < -2147483648 ∨ ival > 2147483647 then
    ["value exceeds C# int range [-2147483648,2147483647]: " ++ toString ival]
  else []

/-- `_convert_primitive` for type int under the lenient policy
(parsing/data_processing.py): result value plus logged warnings. -/
def convert_primitive_int_lenient (value : Val) : Except String (Int × List String) :=
  match value with
  | .vnone => .ok (0, intRangeWarnings 0)
  | v =>
    match pyInt v with
    | none => .error "int conversion failed"
    | some i => .ok (i, intRangeWarnings i)

/-- The strict range check for ints (data_processing.py): out-of-range
raises (its own except-handler rewraps the message, still a hard error). -/
def check_int_strict (ival : Int) : Except String Int :=
  if ival < -2147483648 ∨ ival > 2147483647 then
    .error "value cannot be converted to C# int"
  else .ok ival

/-- `_convert_primitive` for type int under the strict policy
(data_processing.py). -/
def convert_primitive_int_strict (value : Val) : Except String Int :=
  match value with
  | .vnone => check_int_strict 0
  | v =>
    match pyInt v with
    | none => .error "value cannot be converted to C# int"
    | some i => check_int_strict i

/-- C3: converting the string 2147483648 as int returns 2147483648 with
exactly one warning under the lenient policy, and raises a hard error
under the strict policy. -/
theorem int_range_policy_2147483648 :
    convert_primitive_int_lenient (Val.vstr "2147483648") =
      .ok (2147483648,
        ["value exceeds C# int range [-2147483648,2147483647]: 2147483648"]) ∧
    convert_primitive_int_strict (Val.vstr "2147483648") =
      .error "value cannot be converted to C# int" := by
  decide

/-! ## Enum registry (enum_registry.py) -/

/-- ASCII model of Python `str.lower()` (no non-ASCII letters occur in any
claim). -/
def pyLower (s : String) : String := String.mk (s.data.map Char.toLower)

/-- The process-wide enum registry: the three dicts of `EnumRegistry`,
modelled as insertion-ordered association lists. -/
structure EnumRegistry where
  enums : List (String × List (String × Int))
  enum_namespaces : List (String × String)
  enum_sources : List (String × String)
deriving Repr, DecidableEq

/-- `enum_name in self._enums`. -/
def EnumRegistry.has_enum (reg : EnumRegistry) (enum_name : String) : Bool :=
  reg.enums.any (fun p => p.1 = enum_name)

/-- `self._enums[enum_name]` (defaulting to the empty dict, which cannot
happen when `has_enum` holds). -/
def EnumRegistry.itemsOf (reg : EnumRegistry) (enum_name : String) : List (String × Int) :=
  match reg.enums.find? (fun p => p.1 = enum_name) with
  | some p => p.2
  | none => []

/-- Python `set(a) != set(b)` on the item-name keys, as used by
`register_enum` to distinguish its two duplicate errors. -/
def sameKeySet (a b : List String) : Bool :=
  a.all (fun x => b.contains x) && b.all (fun x => a.contains x)

/-- Errors raised by `register_enum`. -/
inductive RegisterErr where
  | invalidEnumTypeName : String → RegisterErr
  | duplicateDifferentItems : String → RegisterErr
  | duplicateSameItems : String → RegisterErr
deriving Repr, DecidableEq

/-- `EnumRegistry.register_enum`: reject an invalid C# name, reject any
re-registration of an existing name (with one of two duplicate errors
depending on whether the item-name sets agree), otherwise record the
enum. -/
def register_enum (reg : EnumRegistry) (enum_name : String)
    (enum_items : List (String × Int)) (ns : String) (source : String) :
    Except RegisterErr EnumRegistry :=
  if ¬ is_valid_csharp_ident enum_name then .error (.invalidEnumTypeName enum_name)
  else if reg.has_enum enum_name then
    let existing_items := (reg.itemsOf enum_name).map Prod.fst
    let new_items := enum_items.map Prod.fst
    if ¬ sameKeySet existing_items new_items then
      .error (.duplicateDifferentItems enum_name)
    else
      .error (.duplicateSameItems enum_name)
  else
    .ok { enums := reg.enums ++ [(enum_name, enum_items)],
          enum_namespaces := reg.enum_namespaces ++ [(enum_name, ns)],
          enum_sources := reg.enum_sources ++ [(enum_name, source)] }

/-- C6: once an enum name is registered, a second `register_enum` call with
that name always raises — even with an identical item set — and (the
registry being returned only on success) the registered entry is left
unchanged.  The second conjunct pins down the identical-items case: it
still errors, with the dedicated duplicate-definition error. -/
theorem register_enum_duplicate_always_fails (reg : EnumRegistry)
    (enum_name : String) (enum_items : List (String × Int)) (ns source : String)
    (hdup : reg.has_enum enum_name = true) :
    (∃ e, register_enum reg enum_name enum_items ns source = .error e) ∧
    (is_valid_csharp_ident enum_name = true →
      sameKeySet ((reg.itemsOf enum_name).map Prod.fst) (enum_items.map Prod.fst) = true →
      register_enum reg enum_name enum_items ns source =
        .error (.duplicateSameItems enum_name)) := by
  constructor
  · by_cases hv : is_valid_csharp_ident enum_name
    · by_cases hs : sameKeySet ((reg.itemsOf enum_name).map Prod.fst)
          (enum_items.map Prod.fst)
      · exact ⟨.duplicateSameItems enum_name, by simp [register_enum, hv, hdup, hs]⟩
      · exact ⟨.duplicateDifferentItems enum_name, by simp [register_enum, hv, hdup, hs]⟩
    · exact ⟨.invalidEnumTypeName enum_name, by simp [register_enum, hv]⟩
  · intro hv hs
    simp [register_enum, hv, hdup, hs]

/-- C6 (witness at a concrete registry: re-registering Color with the very
same items errors, with the duplicate-definition error). -/
theorem register_enum_duplicate_always_fails_witness :
    (∃ e, register_enum ⟨[("Color", [("Red", 0)])], [("Color", "Data.TableScript")],
        [("Color", "A.xlsx")]⟩ "Color" [("Red", 0)] "Data.TableScript" "B.xlsx" = .error e) ∧
    register_enum ⟨[("Color", [("Red", 0)])], [("Color", "Data.TableScript")],
        [("Color", "A.xlsx")]⟩ "Color" [("Red", 0)] "Data.TableScript" "B.xlsx" =
      .error (.duplicateSameItems "Color") :=
  ⟨(register_enum_duplicate_always_fails _ "Color" [("Red", 0)] "Data.TableScript" "B.xlsx"
      (by decide)).1,
   (register_enum_duplicate_always_fails _ "Color" [("Red", 0)] "Data.TableScript" "B.xlsx"
      (by decide)).2 (by decide) (by decide)⟩

/-! ## Asset existence validator (validation/asset_validator.py) -/

/-- One indexed asset: exact-case base name and lowercased extension
(the filesystem path plays no role in `exists_base_name`). -/
structure AssetEntry where
  base : String
  ext : String
deriving Repr, DecidableEq

/-- Model of `os.path.splitext` for plain file names: split at the last
dot, except that the leading dots of the name never start an extension. -/
def splitext (fn : String) : String × String :=
  let cs := fn.data
  let lead := cs.takeWhile (fun c => c = '.')
  let rest := cs.drop lead.length
  if rest.contains '.' then
    let extRev := rest.reverse.takeWhile (fun c => c ≠ '.')
    let base := lead ++ rest.take (rest.length - extRev.length - 1)
    (String.mk base, String.mk ('.' :: extRev.reverse))
  else (fn, "")

/-- `idx.setdefault(key, []).append(entry)`. -/
def setdefaultAppend (idx : List (String × List AssetEntry)) (key : String)
    (e : AssetEntry) : List (String × List AssetEntry) :=
  match idx with
  | [] => [(key, [e])]
  | (k, es) :: rest =>
    if k = key then (k, es ++ [e]) :: rest
    else (k, es) :: setdefaultAppend rest key e

/-- `AssetValidator._build_index` over the walked file names: skip
`.meta` files, split base/extension, lowercase the extension (without its
dot) and index under the lowercased base name. -/
def build_index (files : List String) : List (String × List AssetEntry) :=
  files.foldl
    (fun idx fn =>
      if (".meta".data.reverse.isPrefixOf fn.data.reverse) then idx
      else
        let (base, ext0) := splitext fn
        let ext := if ext0 ≠ "" then pyLower (ext0.drop 1) else ""
        setdefaultAppend idx (pyLower base) ⟨base, ext⟩)
    []

/-- `required_ext.strip().lstrip(".").lower()`. -/
def normRequiredExt (re : String) : String :=
  pyLower (String.mk ((pyStrip re).data.dropWhile (fun c => c = '.')))

/-- `AssetValidator.exists_base_name`: look up by lowercased+stripped base
name, then require an exact-case base-name match, and (when a required
extension is given) a case-insensitive extension match. -/
def exists_base_name (idx : List (String × List AssetEntry))
    (base_name : String) (required_ext : Option String) : Bool :=
  if idx = [] then false
  else
    let key := pyStrip (pyLower base_name)
    let cand := match idx.find? (fun p => p.1 = key) with
      | some p => p.2
      | none => []
    if cand = [] then false
    else
      match required_ext with
      | some re =>
        if re = "" then cand.any (fun e => e.base == base_name)
        else
          let req := normRequiredExt re
          cand.any (fun e => e.base == base_name && e.ext == req)
      | none => cand.any (fun e => e.base == base_name)

/-- C7: indexing a directory containing Hero.png, `exists_base_name` is
true for (Hero, png) and (Hero, None), false for (hero, png) — the base
name is case-sensitive — and false for (Hero, jpg) — the extension must
match (case-insensitively). -/
theorem exists_base_name_hero :
    exists_base_name (build_index ["Hero.png"]) "Hero" (some "png") = true ∧
    exists_base_name (build_index ["Hero.png"]) "Hero" none = true ∧
    exists_base_name (build_index ["Hero.png"]) "hero" (some "png") = false ∧
    exists_base_name (build_index ["Hero.png"]) "Hero" (some "jpg") = false := by
  decide

/-! ## Type annotation parsing (utils/type_utils.py)

`parse_type_annotation` tries, in order, the anchored case-insensitive
patterns for enum(...), list(...), dict(...,...) and otherwise returns a
scalar with a normalized base.  The regexes are modelled operationally:
* the enum pattern captures the (non-empty) characters between the first
  opening parenthesis and the first closing one, which must end the string;
* in the list/dict patterns the trailing captured group is a dot-plus
  group, so the payload between the parentheses must have a non-newline
  core surrounded by optional whitespace (the dollar anchor is modelled as
  end-of-string: no claim input carries a trailing newline);
* the dict key group is everything before the first comma (non-empty).
All captured groups are stripped exactly where the source strips them. -/

/-- Case-insensitively consume a literal (given lowercase) prefix. -/
def ciStripLit : List Char → List Char → Option (List Char)
  | [], cs => some cs
  | _ :: _, [] => none
  | p :: ps, c :: cs => if c.toLower = p then ciStripLit ps cs else none

/-- The content matched by a greedy dot-plus group padded by whitespace:
the stripped core when it is non-empty and newline-free; an empty core
when the chunk is whitespace containing some non-newline character;
nothing otherwise. -/
def singleLineCore (chunk : List Char) : Option (List Char) :=
  let core := stripChars chunk
  if core ≠ [] then (if core.contains '\n' then none else some core)
  else if chunk.any (fun c => c ≠ '\n') then some []
  else none

/-- The anchored enum pattern; returns the stripped enum name. -/
def matchEnum (t : String) : Option String :=
  match ciStripLit "enum".data t.data with
  | none => none
  | some r1 =>
    match r1.dropWhile isPySpace with
    | '(' :: r3 =>
      let inner := r3.takeWhile (fun c => c ≠ ')')
      if inner = [] then none
      else
        match r3.dropWhile (fun c => c ≠ ')') with
        | [')'] => some (String.mk (stripChars inner))
        | _ => none
    | _ => none

/-- The anchored list pattern; returns the stripped element type. -/
def matchList (t : String) : Option String :=
  match ciStripLit "list".data t.data with
  | none => none
  | some r1 =>
    match r1.dropWhile isPySpace with
    | '(' :: r3 =>
      match r3.getLast? with
      | some ')' =>
        match singleLineCore r3.dropLast with
        | some core => some (String.mk core)
        | none => none
      | _ => none
    | _ => none

/-- The anchored dict pattern; returns the stripped key and value types. -/
def matchDict (t : String) : Option (String × String) :=
  match ciStripLit "dict".data t.data with
  | none => none
  | some r1 =>
    match r1.dropWhile isPySpace with
    | '(' :: r3 =>
      let g1 := r3.takeWhile (fun c => c ≠ ',')
      if g1 = [] then none
      else
        match r3.dropWhile (fun c => c ≠ ',') with
        | ',' :: r4 =>
          match r4.getLast? with
          | some ')' =>
            match singleLineCore r4.dropLast with
            | some core => some (String.mk (stripChars g1), String.mk core)
            | none => none
          | _ => none
        | _ => none
    | _ => none

/-- `base_norm` from `parse_type_annotation`: strip, lowercase, then map
the alias families to their canonical bases. -/
def base_norm (s : String) : String :=
  let t := pyLower (pyStrip s)
  if t = "int" ∨ t = "int32" ∨ t = "integer" then "int"
  else if t = "float" ∨ t = "double" then "float"
  else if t = "str" ∨ t = "string" then "string"
  else if t = "bool" ∨ t = "boolean" then "bool"
  else t

/-- `parse_type_annotation`: kind (scalar/list/dict/enum) and base. -/
def parse_type_annot (type_str : String) : String × Option String :=
  let t := pyStrip type_str
  match matchEnum t with
  | some enum_name => ("enum", some enum_name)
  | none =>
    match matchList t with
    | some inner =>
      match matchEnum inner with
      | some enum_name => ("list", some ("enum(" ++ enum_name ++ ")"))
      | none => ("list", some (base_norm inner))
    | none =>
      match matchDict t with
      | some kv =>
        match matchEnum kv.2 with
        | some enum_name => ("dict", some ("enum(" ++ enum_name ++ ")"))
        | none => ("dict", none)
      | none => ("scalar", some (base_norm t))

/-- C9: `parse_type_annotation` is total (the model is a total function;
the source only uses non-raising regex operations) and for every input
returns a kind among scalar/list/dict/enum; any input matching none of
the enum/list/dict patterns yields kind scalar with the trimmed,
lowercased, alias-normalized base. -/
theorem parse_type_annot_total (s : String) :
    (parse_type_annot s).1 ∈ (["scalar", "list", "dict", "enum"] : List String) ∧
    (matchEnum (pyStrip s) = none → matchList (pyStrip s) = none →
      matchDict (pyStrip s) = none →
      parse_type_annot s = ("scalar", some (base_norm (pyStrip s)))) := by
  constructor
  · simp only [parse_type_annot]
    cases matchEnum (pyStrip s) with
    | some e => simp
    | none =>
      cases matchList (pyStrip s) with
      | some inner => cases h4 : matchEnum inner <;> simp [h4]
      | none =>
        cases matchDict (pyStrip s) with
        | some kv => cases h5 : matchEnum kv.2 <;> simp [h5]
        | none => simp
  · intro h1 h2 h3
    simp only [parse_type_annot, h1, h2, h3]

/-- C9 (witness at a concrete input not matching any container pattern). -/
theorem parse_type_annot_total_witness :
    (parse_type_annot "Money").1 ∈ (["scalar", "list", "dict", "enum"] : List String) ∧
    parse_type_annot "Money" = ("scalar", some (base_norm (pyStrip "Money"))) :=
  ⟨(parse_type_annot_total "Money").1,
    (parse_type_annot_total "Money").2 (by decide) (by decide) (by decide)⟩

/-! ## Duplicate-key pre-scans (validation/worksheet_validator.py)

`check_duplicate_enum_keys` validates every first-column value and groups
the Excel row numbers (7 + index) per value in `name_rows`, raising one
error listing all duplicated values; `check_duplicate_composite_keys`
walks the rows keeping a `seen` dict from combined key to Excel row and
raises at the first repeated combined key (its `max_key2` argument is
never used: no range check happens in this pre-scan). -/

/-- `available_csharp_enum_name` applied to a cell value (the in-src
implementation in data_processing.py matches the identifier regex against
`str(name)`). -/
def available_enum_name (v : Val) : Bool := is_valid_csharp_ident (pyStr v)

/-- Errors of the two pre-scans. -/
inductive ScanErr where
  | invalidEnumName : Val → Nat → ScanErr
  | duplicateEnumKeys : List (Val × List Nat) → ScanErr
  | emptyCompositeKey : Nat → ScanErr
  | notIntCompositeKey : Nat → ScanErr
  | duplicatePrimaryKey : Int → Nat → Nat → ScanErr
deriving Repr, DecidableEq

/-- `name_rows[val].append(excel_row)` on the insertion-ordered dict. -/
def appendNameRow (acc : List (Val × List Nat)) (v : Val) (r : Nat) :
    List (Val × List Nat) :=
  match acc with
  | [] => [(v, [r])]
  | (w, rs) :: rest =>
    if w = v then (w, rs ++ [r]) :: rest
    else (w, rs) :: appendNameRow rest v r

/-- Dict lookup (`[]` when absent) on the grouped rows. -/
def assocGetRows (l : List (Val × List Nat)) (v : Val) : List Nat :=
  match l with
  | [] => []
  | (w, rs) :: rest => if w = v then rs else assocGetRows rest v

/-- The first loop of `check_duplicate_enum_keys`: skip empty rows,
validate each first-column value, group Excel row numbers per value. -/
def collectNameRows : List (List Val) → Nat → List (Val × List Nat) →
    Except ScanErr (List (Val × List Nat))
  | [], _, acc => .ok acc
  | row :: rest, idx, acc =>
    match row with
    | [] => collectNameRows rest (idx + 1) acc
    | v :: _ =>
      if available_enum_name v then
        collectNameRows rest (idx + 1) (appendNameRow acc v (7 + idx))
      else .error (.invalidEnumName v (7 + idx))

/-- `check_duplicate_enum_keys`: the grouped rows are filtered down to the
values with more than one row; a non-empty filter raises an error carrying
all of them. -/
def check_duplicate_enum_keys (row_data : List (List Val)) : Except ScanErr Unit :=
  match collectNameRows row_data 0 [] with
  | .error e => .error e
  | .ok name_rows =>
    let dup := name_rows.filter (fun p => 1 < p.2.length)
    if dup = [] then .ok () else .error (.duplicateEnumKeys dup)

/-- Dict lookup in the `seen` map of the composite pre-scan. -/
def lookupSeen (seen : List (Int × Nat)) (c : Int) : Option Nat :=
  match seen.find? (fun p => p.1 = c) with
  | some p => some p.2
  | none => none

/-- The loop of `check_duplicate_composite_keys`: skip rows shorter than
two cells, reject None and non-int keys, combine, and raise at the first
combined key already seen (reporting the stored Excel row and the current
one). -/
def compositeScanGo (mult : Int) : List (List Val) → Nat → List (Int × Nat) →
    Except ScanErr Unit
  | [], _, _ => .ok ()
  | row :: rest, idx, seen =>
    match row with
    | a :: b :: _ =>
      let excel_row := 7 + idx
      if a = Val.vnone ∨ b = Val.vnone then .error (.emptyCompositeKey excel_row)
      else
        match pyInt a, pyInt b with
        | some i1, some i2 =>
          let combined := i1 * mult + i2
          match lookupSeen seen combined with
          | some prev => .error (.duplicatePrimaryKey combined prev excel_row)
          | none => compositeScanGo mult rest (idx + 1) (seen ++ [(combined, excel_row)])
        | _, _ => .error (.notIntCompositeKey excel_row)
    | _ => compositeScanGo mult rest (idx + 1) seen

/-- `check_duplicate_composite_keys` (the `max_key2` argument is received
and, as in the source, never used). -/
def check_duplicate_composite_keys (row_data : List (List Val))
    (multiplier max_key2 : Int) : Except ScanErr Unit :=
  compositeScanGo multiplier row_data 0 []

/-- The first-column value of row index i (None when the row is missing
or empty). -/
def headAt (rows : List (List Val)) (i : Nat) : Option Val :=
  (rows.get? i).bind List.head?

/-- The Excel rows (7 + index) at which value v heads a non-empty row,
starting from offset idx: the reference shape of `name_rows[v]`. -/
def occRows (rows : List (List Val)) (idx : Nat) (v : Val) : List Nat :=
  match rows with
  | [] => []
  | row :: rest =>
    match row.head? with
    | some w =>
      if w = v then (7 + idx) :: occRows rest (idx + 1) v
      else occRows rest (idx + 1) v
    | none => occRows rest (idx + 1) v

theorem assocGetRows_append_self (acc : List (Val × List Nat)) (v : Val) (r : Nat) :
    assocGetRows (appendNameRow acc v r) v = assocGetRows acc v ++ [r] := by
  induction acc with
  | nil => simp [appendNameRow, assocGetRows]
  | cons p rest ih =>
    obtain ⟨w, rs⟩ := p
    by_cases h : w = v
    · simp [appendNameRow, assocGetRows, h]
    · simp [appendNameRow, assocGetRows, h, ih]

theorem assocGetRows_append_other (acc : List (Val × List Nat)) (v : Val) (r : Nat)
    (w : Val) (h : w ≠ v) :
    assocGetRows (appendNameRow acc v r) w = assocGetRows acc w := by
  induction acc with
  | nil => simp [appendNameRow, assocGetRows, Ne.symm h]
  | cons p rest ih =>
    obtain ⟨w', rs⟩ := p
    by_cases h1 : w' = v
    · simp [appendNameRow, assocGetRows, h1, Ne.symm h]
    · by_cases h2 : w' = w
      · simp [appendNameRow, assocGetRows, h1, h2, h]
      · simp [appendNameRow, assocGetRows, h1, h2, ih]

theorem appendNameRow_keys (acc : List (Val × List Nat)) (v : Val) (r : Nat) :
    (appendNameRow acc v r).map Prod.fst =
      if v ∈ acc.map Prod.fst then acc.map Prod.fst else acc.map Prod.fst ++ [v] := by
  induction acc with
  | nil => simp [appendNameRow]
  | cons p rest ih =>
    obtain ⟨w, rs⟩ := p
    by_cases h : w = v
    · simp [appendNameRow, h]
    · simp only [appendNameRow, if_neg h, List.map_cons]
      rw [ih]
      by_cases hv : v ∈ rest.map Prod.fst
      · simp [hv, List.mem_cons, Ne.symm h]
      · simp [hv, List.mem_cons, Ne.symm h]

theorem appendNameRow_keys_nodup (acc : List (Val × List Nat)) (v : Val) (r : Nat)
    (h : (acc.map Prod.fst).Nodup) :
    ((appendNameRow acc v r).map Prod.fst).Nodup := by
  rw [appendNameRow_keys]
  split
  · exact h
  · next hv => simp [List.nodup_append, h, hv]

theorem collectNameRows_get (rows : List (List Val)) :
    ∀ (idx : Nat) (acc out : List (Val × List Nat)),
      collectNameRows rows idx acc = .ok out →
      ∀ v, assocGetRows out v = assocGetRows acc v ++ occRows rows idx v := by
  induction rows with
  | nil =>
    intro idx acc out h v
    cases h
    simp [occRows]
  | cons row rest ih =>
    intro idx acc out h v
    cases row with
    | nil =>
      have h' : collectNameRows rest (idx + 1) acc = .ok out := h
      simpa [occRows] using ih (idx + 1) acc out h' v
    | cons w rtail =>
      by_cases hv : available_enum_name w
      · have h' : collectNameRows rest (idx + 1) (appendNameRow acc w (7 + idx)) = .ok out := by
          simpa [collectNameRows, hv] using h
        have hrec := ih (idx + 1) (appendNameRow acc w (7 + idx)) out h' v
        by_cases hw : w = v
        · subst hw
          rw [hrec, assocGetRows_append_self]
          simp [occRows]
        · rw [hrec, assocGetRows_append_other acc w (7 + idx) v (fun he => hw he.symm)]
          simp [occRows, hw]
      · simp [collectNameRows, hv] at h

theorem collectNameRows_ok (rows : List (List Val)) :
    ∀ (idx : Nat) (acc : List (Val × List Nat)),
      (∀ k w, headAt rows k = some w → available_enum_name w = true) →
      ∃ out, collectNameRows rows idx acc = .ok out := by
  induction rows with
  | nil => intro idx acc _; exact ⟨acc, rfl⟩
  | cons row rest ih =>
    intro idx acc hvalid
    have hshift : ∀ k w, headAt rest k = some w → available_enum_name w = true :=
      fun k w hk => hvalid (k + 1) w hk
    cases row with
    | nil => exact ih (idx + 1) acc hshift
    | cons w rtail =>
      have hw : available_enum_name w = true := by
        refine hvalid 0 w ?_
        simp [headAt]
      obtain ⟨out, hout⟩ := ih (idx + 1) (appendNameRow acc w (7 + idx)) hshift
      exact ⟨out, by simp [collectNameRows, hw, hout]⟩

theorem collectNameRows_nodup (rows : List (List Val)) :
    ∀ (idx : Nat) (acc out : List (Val × List Nat)),
      collectNameRows rows idx acc = .ok out →
      (acc.map Prod.fst).Nodup → (out.map Prod.fst).Nodup := by
  induction rows with
  | nil => intro idx acc out h hnd; cases h; exact hnd
  | cons row rest ih =>
    intro idx acc out h hnd
    cases row with
    | nil => exact ih (idx + 1) acc out h hnd
    | cons w rtail =>
      by_cases hv : available_enum_name w
      · have h' : collectNameRows rest (idx + 1) (appendNameRow acc w (7 + idx)) = .ok out := by
          simpa [collectNameRows, hv] using h
        exact ih (idx + 1) _ out h' (appendNameRow_keys_nodup acc w (7 + idx) hnd)
      · simp [collectNameRows, hv] at h

theorem assocGetRows_mem (l : List (Val × List Nat)) (v : Val)
    (h : assocGetRows l v ≠ []) : (v, assocGetRows l v) ∈ l := by
  induction l with
  | nil => simp [assocGetRows] at h
  | cons p rest ih =>
    obtain ⟨w, rs⟩ := p
    by_cases hw : w = v
    · subst hw
      simp [assocGetRows]
    · simp only [assocGetRows, if_neg hw] at h ⊢
      exact List.mem_cons_of_mem _ (ih h)

theorem assocGetRows_of_mem (l : List (Val × List Nat)) (v : Val) (rs : List Nat)
    (hnd : (l.map Prod.fst).Nodup) (hm : (v, rs) ∈ l) :
    assocGetRows l v = rs := by
  induction l with
  | nil => cases hm
  | cons p rest ih =>
    obtain ⟨w, rs'⟩ := p
    rcases List.mem_cons.mp hm with he | hmem
    · obtain ⟨h1, h2⟩ := Prod.mk.injEq .. ▸ he
      simp [assocGetRows, h1.symm, h2]
    · have hw : w ≠ v := by
        intro hwv
        subst hwv
        have : w ∈ rest.map Prod.fst := List.mem_map.mpr ⟨(w, rs), hmem, rfl⟩
        exact (List.nodup_cons.mp hnd).1 this
      simp only [assocGetRows, if_neg hw]
      exact ih (List.nodup_cons.mp hnd).2 hmem

theorem two_mem_one_lt_length {l : List Nat} {a b : Nat} (hab : a ≠ b)
    (ha : a ∈ l) (hb : b ∈ l) : 1 < l.length := by
  cases l with
  | nil => cases ha
  | cons x xs =>
    cases xs with
    | nil =>
      simp only [List.mem_singleton] at ha hb
      exact absurd (ha.trans hb.symm) hab
    | cons y ys =>
      simp only [List.length_cons]
      omega

theorem mem_occRows (rows : List (List Val)) :
    ∀ (k idx : Nat) (v : Val), headAt rows k = some v →
      (7 + idx + k) ∈ occRows rows idx v := by
  induction rows with
  | nil => intro k idx v h; simp [headAt] at h
  | cons row rest ih =>
    intro k idx v h
    cases k with
    | zero =>
      have hh : row.head? = some v := by simpa [headAt] using h
      simp [occRows, hh]
    | succ k' =>
      have h' : headAt rest k' = some v := h
      have hmem := ih k' (idx + 1) v h'
      have harith : 7 + (idx + 1) + k' = 7 + idx + (k' + 1) := by omega
      rw [harith] at hmem
      cases hh : row.head? with
      | none => simpa [occRows, hh] using hmem
      | some w =>
        by_cases hw : w = v
        · simp only [occRows, hh, if_pos hw]
          exact List.mem_cons_of_mem _ hmem
        · simpa [occRows, hh, hw] using hmem

/-- C4 (counterexample): a CompositeKey sheet with two distinct duplicated
key pairs — (1,1) at Excel rows 7, 8 and (2,2) at rows 9, 10.  The
pre-scan raises at the first collision only: the report carries the single
combined key 46341 with rows 7 and 8 and says nothing about the second
duplicated pair, refuting the claim that the failure report lists all
duplicated key values. -/
theorem composite_prescan_first_collision_only :
    check_duplicate_composite_keys
      [[Val.vint 1, Val.vint 1], [Val.vint 1, Val.vint 1],
       [Val.vint 2, Val.vint 2], [Val.vint 2, Val.vint 2]] 46340 46340 =
      .error (.duplicatePrimaryKey 46341 7 8) := by decide

/-- C4 (amended): the EnumKey pre-scan reports, on failure, all duplicated
key values together with the original Excel row numbers (7 + row index) of
every occurrence; the CompositeKey pre-scan reports original Excel row
numbers too, but stops at the first duplicate combined key and names only
the two rows of that first collision. -/
theorem duplicate_prescan_reports (rows : List (List Val))
    (hvalid : ∀ k w, headAt rows k = some w → available_enum_name w = true)
    (v : Val) (i j : Nat) (hij : i ≠ j)
    (hi : headAt rows i = some v) (hj : headAt rows j = some v) :
    (∃ d, check_duplicate_enum_keys rows = .error (.duplicateEnumKeys d) ∧
      ∀ w k k', k ≠ k' → headAt rows k = some w → headAt rows k' = some w →
        (7 + k) ∈ assocGetRows d w) ∧
    (∀ (rows2 : List (List Val)) (mult maxk c : Int) (r1 r2 : Nat),
      check_duplicate_composite_keys rows2 mult maxk =
          .error (.duplicatePrimaryKey c r1 r2) →
      ∃ i' j', i' < j' ∧ r1 = 7 + i' ∧ r2 = 7 + j') := by
  constructor
  · obtain ⟨out, hout⟩ := collectNameRows_ok rows 0 [] hvalid
    have hget : ∀ w, assocGetRows out w = occRows rows 0 w := by
      intro w
      simpa [assocGetRows] using collectNameRows_get rows 0 [] out hout w
    have hnd : (out.map Prod.fst).Nodup :=
      collectNameRows_nodup rows 0 [] out hout (by simp)
    have hdup_get : ∀ w k k', k ≠ k' → headAt rows k = some w → headAt rows k' = some w →
        (7 + k) ∈ assocGetRows out w ∧ 1 < (assocGetRows out w).length := by
      intro w k k' hkk hk hk'
      have hm1 : (7 + k) ∈ assocGetRows out w := by
        rw [hget]
        simpa using mem_occRows rows k 0 w hk
      have hm2 : (7 + k') ∈ assocGetRows out w := by
        rw [hget]
        simpa using mem_occRows rows k' 0 w hk'
      exact ⟨hm1, two_mem_one_lt_length (by omega) hm1 hm2⟩
    set dup := out.filter (fun p => 1 < p.2.length) with hdupdef
    have hv_mem : (v, assocGetRows out v) ∈ dup := by
      obtain ⟨hm, hlen⟩ := hdup_get v i j hij hi hj
      refine List.mem_filter.mpr ⟨assocGetRows_mem out v ?_, by simpa using hlen⟩
      intro hemp
      rw [hemp] at hm
      cases hm
    have hdup_ne : dup ≠ [] := fun h0 => by
      rw [h0] at hv_mem
      cases hv_mem
    refine ⟨dup, ?_, ?_⟩
    · simp [check_duplicate_enum_keys, hout, hdup_ne, hdupdef]
    · intro w k k' hkk hk hk'
      obtain ⟨hm, hlen⟩ := hdup_get w k k' hkk hk hk'
      have hw_mem : (w, assocGetRows out w) ∈ dup := by
        refine List.mem_filter.mpr ⟨assocGetRows_mem out w ?_, by simpa using hlen⟩
        intro hemp
        rw [hemp] at hm
        cases hm
      have hnd_dup : (dup.map Prod.fst).Nodup :=
        ((List.filter_sublist out).map Prod.fst).nodup hnd
      rw [assocGetRows_of_mem dup w (assocGetRows out w) hnd_dup hw_mem]
      exact hm
  · intro rows2 mult maxk c r1 r2 hrun
    have main : ∀ (rs : List (List Val)) (idx : Nat) (seen : List (Int × Nat)),
        (∀ p ∈ seen, ∃ ip, ip < idx ∧ p.2 = 7 + ip) →
        compositeScanGo mult rs idx seen = .error (.duplicatePrimaryKey c r1 r2) →
        ∃ i' j', i' < j' ∧ r1 = 7 + i' ∧ r2 = 7 + j' := by
      intro rs
      induction rs with
      | nil => intro idx seen _ h; cases h
      | cons row rest ih =>
        intro idx seen hseen h
        cases row with
        | nil => exact ih (idx + 1) seen (fun p hp => (hseen p hp).imp (fun ip hip => ⟨hip.1.trans (by omega), hip.2⟩)) h
        | cons a rtail =>
          cases rtail with
          | nil => exact ih (idx + 1) seen (fun p hp => (hseen p hp).imp (fun ip hip => ⟨hip.1.trans (by omega), hip.2⟩)) h
          | cons b rtail2 =>
            by_cases hnone : a = Val.vnone ∨ b = Val.vnone
            · simp [compositeScanGo, hnone] at h
            · cases h1 : pyInt a with
              | none => simp [compositeScanGo, hnone, h1] at h
              | some i1 =>
                cases h2 : pyInt b with
                | none => simp [compositeScanGo, hnone, h1, h2] at h
                | some i2 =>
                  cases h3 : lookupSeen seen (i1 * mult + i2) with
                  | some prev =>
                    have heq : ScanErr.duplicatePrimaryKey (i1 * mult + i2) prev (7 + idx) =
                        .duplicatePrimaryKey c r1 r2 := by
                      have := h
                      simp only [compositeScanGo, hnone, if_neg, h1, h2, h3] at this
                      exact Except.error.inj this
                    obtain ⟨-, hprev, hcur⟩ := ScanErr.duplicatePrimaryKey.inj heq
                    have hmem : (i1 * mult + i2, prev) ∈ seen := by
                      unfold lookupSeen at h3
                      cases hf : seen.find? (fun p => p.1 = i1 * mult + i2) with
                      | none => rw [hf] at h3; cases h3
                      | some p =>
                        rw [hf] at h3
                        have hp2 : p.2 = prev := by
                          simpa using h3
                        have := List.find?_some hf
                        have hmem' := List.mem_of_find?_eq_some hf
                        have hp1 : p.1 = i1 * mult + i2 := by simpa using this
                        have : p = (i1 * mult + i2, prev) := Prod.ext hp1 hp2
                        rwa [this] at hmem'
                    obtain ⟨ip, hip, hpform⟩ := hseen _ hmem
                    exact ⟨ip, idx, hip, by omega, by omega⟩
                  | none =>
                    refine ih (idx + 1) (seen ++ [(i1 * mult + i2, 7 + idx)]) ?_ ?_
                    · intro p hp
                      rcases List.mem_append.mp hp with hp1 | hp2
                      · exact (hseen p hp1).imp (fun ip hip => ⟨hip.1.trans (by omega), hip.2⟩)
                      · simp only [List.mem_singleton] at hp2
                        exact ⟨idx, by omega, by rw [hp2]⟩
                    · simpa [compositeScanGo, hnone, h1, h2, h3] using h
    exact main rows2 0 [] (by simp) hrun

/-- C4 (witness for the amended theorem: a two-row sheet whose string key
A repeats). -/
theorem duplicate_prescan_reports_witness :
    (∃ d, check_duplicate_enum_keys [[Val.vstr "A"], [Val.vstr "A"]] =
        .error (.duplicateEnumKeys d) ∧
      ∀ w k k', k ≠ k' → headAt [[Val.vstr "A"], [Val.vstr "A"]] k = some w →
        headAt [[Val.vstr "A"], [Val.vstr "A"]] k' = some w →
        (7 + k) ∈ assocGetRows d w) ∧
    (∀ (rows2 : List (List Val)) (mult maxk c : Int) (r1 r2 : Nat),
      check_duplicate_composite_keys rows2 mult maxk =
          .error (.duplicatePrimaryKey c r1 r2) →
      ∃ i' j', i' < j' ∧ r1 = 7 + i' ∧ r2 = 7 + j') :=
  duplicate_prescan_reports [[Val.vstr "A"], [Val.vstr "A"]]
    (by
      intro k w hk
      rcases k with _ | _ | k
      · rw [show headAt [[Val.vstr "A"], [Val.vstr "A"]] 0 = some (Val.vstr "A") from rfl] at hk
        cases hk
        decide
      · rw [show headAt [[Val.vstr "A"], [Val.vstr "A"]] 1 = some (Val.vstr "A") from rfl] at hk
        cases hk
        decide
      · rw [show headAt [[Val.vstr "A"], [Val.vstr "A"]] (k + 2) = none from rfl] at hk
        cases hk)
    (Val.vstr "A") 0 1 (by decide) rfl rfl

/-! ## Reference checker (validation/reference_checker.py)

`ReferenceChecker.run_checks` is modelled for one fresh run: the queue of
pending checks is the input list, and `load_ref_set` (filesystem JSON
loading plus field inference and caching) is abstracted as a lookup
function from (sheet, declared field) to an optional resolved pack of
(value set, inferred base, real field).  Logged lines are modelled as
events; the internal `any_error` flag is set exactly where the source
sets it (missing reference value, declared-vs-target base mismatch) and
notably not by the per-value type mismatch or non-list errors. -/

/-- One entry of `_pending_ref_checks`. -/
structure CheckItem where
  excel_row : Nat
  field_name : String
  ref_sheet : String
  ref_field : Option String
  kind : String
  base : Option String
  value : Val
deriving Repr

/-- A resolved reference target: the value set of the target column, its
inferred base type and the resolved field name. -/
structure RefPack where
  values : List Val
  base : Option String
  real_field : String
deriving Repr

/-- The log lines produced by `run_checks`. -/
inductive LogEvent where
  | warnMissingTarget : Nat → String → LogEvent
  | errValueTypeMismatch : Nat → String → String → Val → LogEvent
  | errMissingRef : Nat → String → Val → LogEvent
  | errBaseMismatch : Nat → String → String → String → LogEvent
  | errNonList : Nat → String → LogEvent
  | infoSuccess : LogEvent
deriving Repr, DecidableEq

/-- Modelled from the spec: utils/naming_config.py is not under src/; the
spec names 0 as the allowed-empty sentinel for int references. -/
def REFERENCE_ALLOW_EMPTY_INT_VALUES : List Int := [0]

/-- Modelled from the spec: utils/naming_config.py is not under src/; the
spec names the empty string as the allowed-empty sentinel for string
references. -/
def REFERENCE_ALLOW_EMPTY_STRING_VALUES : List String := [""]

/-- `value_type_ok` from parsing/field_parser.py. -/
def value_type_ok (base : String) (v : Val) : Bool :=
  match v with
  | .vnone => false
  | _ =>
    if base = "int" then (match v with | .vint _ => true | _ => false)
    else if base = "float" then (match v with | .vint _ => true | _ => false)
    else if base = "string" then (match v with | .vstr _ => true | _ => false)
    else if base = "bool" then (match v with | .vbool _ => true | _ => false)
    else true

/-- Python `a or b` on optional strings (an empty string is falsy). -/
def pyOrStr (a b : Option String) : Option String :=
  match a with
  | some s => if s = "" then b else some s
  | none => b

/-- Python truthiness of an optional string. -/
def strTruthy : Option String → Bool
  | some s => s ≠ ""
  | none => false

/-- `_is_empty_ref`: sentinel values that bypass existence checking.
(The Python `isinstance(val, int)` would also accept bools; no claim
exercises a bool against an int reference.) -/
def is_empty_ref (v : Val) (base_type : Option String) : Bool :=
  if base_type = some "int" then
    match v with
    | .vint i => REFERENCE_ALLOW_EMPTY_INT_VALUES.contains i
    | _ => false
  else if base_type = some "string" then
    match v with
    | .vstr s => REFERENCE_ALLOW_EMPTY_STRING_VALUES.contains s
    | _ => false
  else false

/-- `check_one` from `run_checks`: empty-sentinel skip, per-value type
check (logged but not flagged), then membership in the target value set
(logged and flagged). -/
def check_one (row : Nat) (fname : String) (ref_base : Option String)
    (ref_values : List Val) (expected_base : Option String) (v : Val) :
    List LogEvent × Bool :=
  if is_empty_ref v (pyOrStr expected_base ref_base) then ([], false)
  else if strTruthy expected_base ∧ ¬ value_type_ok (expected_base.getD "") v then
    ([.errValueTypeMismatch row fname (expected_base.getD "") v], false)
  else if ref_values.contains v then ([], false)
  else ([.errMissingRef row fname v], true)

/-- The declared-vs-target base comparison of the loop body (`if base and
ref_base and base != ref_base`): an error that sets the flag. -/
def base_part (item : CheckItem) (pack : RefPack) : List LogEvent × Bool :=
  match item.base, pack.base with
  | some b, some rb =>
    if b ≠ "" ∧ rb ≠ "" ∧ b ≠ rb then
      ([.errBaseMismatch item.excel_row item.field_name b rb], true)
    else ([], false)
  | _, _ => ([], false)

/-- The scalar/list dispatch of the loop body: `check_one` on the value or
on each list element; a non-list value under a list declaration is logged
without setting the flag; other kinds check nothing. -/
def check_part (item : CheckItem) (pack : RefPack) : List LogEvent × Bool :=
  if item.kind = "scalar" then
    check_one item.excel_row item.field_name pack.base pack.values
      (pyOrStr item.base pack.base) item.value
  else if item.kind = "list" then
    match item.value with
    | .vlist xs =>
      xs.foldl
        (fun (st : List LogEvent × Bool) ele =>
          let r := check_one item.excel_row item.field_name pack.base pack.values
            (pyOrStr item.base pack.base) ele
          (st.1 ++ r.1, st.2 || r.2))
        ([], false)
    | _ => ([.errNonList item.excel_row item.field_name], false)
  else ([], false)

/-- The body of the `for item in self._pending_ref_checks` loop: missing
target JSON is a warning, then the base comparison and the value checks. -/
def process_item (lookup : String → Option String → Option RefPack)
    (item : CheckItem) : List LogEvent × Bool :=
  match lookup item.ref_sheet item.ref_field with
  | none => ([.warnMissingTarget item.excel_row item.field_name], false)
  | some pack =>
    ((base_part item pack).1 ++ (check_part item pack).1,
     (base_part item pack).2 || (check_part item pack).2)

/-- `run_checks` on a fresh checker: early return on an empty queue,
otherwise process every pending item and log the summary success line
exactly when the `any_error` flag stayed false. -/
def run_checks (pending : List CheckItem)
    (lookup : String → Option String → Option RefPack) : List LogEvent :=
  if pending.isEmpty then []
  else
    let results := pending.map (process_item lookup)
    let events := (results.map Prod.fst).flatten
    let any_error := results.any Prod.snd
    events ++ (if any_error then [] else [LogEvent.infoSuccess])

/-- The error kinds that set `any_error` in the source. -/
def isCountedError : LogEvent → Bool
  | .errMissingRef _ _ _ => true
  | .errBaseMismatch _ _ _ _ => true
  | _ => false

/-- Whether an event is an error line at all (`log_error` calls). -/
def isErrorEvent : LogEvent → Bool
  | .errMissingRef _ _ _ => true
  | .errBaseMismatch _ _ _ _ => true
  | .errValueTypeMismatch _ _ _ _ => true
  | .errNonList _ _ => true
  | _ => false

/-- A concrete resolved-target environment: sheet B with field id holding
the single int value 5 (inferred base int). -/
def lookupB : String → Option String → Option RefPack := fun s f =>
  if s = "B" ∧ f = some "id" then some ⟨[Val.vint 5], some "int", "id"⟩ else none

/-- C5 (counterexample): one pending scalar check declared int whose value
is the string abc.  `value_type_ok` fails, so `run_checks` logs a
per-value type-mismatch error — but that error does not set `any_error`,
so the summary success line is still logged: an error was produced, yet
the success line appears, refuting the claimed iff over every error
kind. -/
theorem run_checks_success_despite_error :
    run_checks [⟨7, "f", "B", some "id", "scalar", some "int", Val.vstr "abc"⟩] lookupB =
      [.errValueTypeMismatch 7 "f" "int" (Val.vstr "abc"), .infoSuccess] ∧
    (∃ e ∈ run_checks [⟨7, "f", "B", some "id", "scalar", some "int", Val.vstr "abc"⟩] lookupB,
      isErrorEvent e = true) ∧
    LogEvent.infoSuccess ∈
      run_checks [⟨7, "f", "B", some "id", "scalar", some "int", Val.vstr "abc"⟩] lookupB := by
  refine ⟨by decide, ⟨.errValueTypeMismatch 7 "f" "int" (Val.vstr "abc"), by decide, by decide⟩, by decide⟩

/-- An (events, flag) pair whose flag holds exactly when a flag-setting
(counted) error is among the events. -/
def WellFlagged (p : List LogEvent × Bool) : Prop :=
  p.2 = true ↔ ∃ e ∈ p.1, isCountedError e = true

theorem wellFlagged_append {p q : List LogEvent × Bool}
    (hp : WellFlagged p) (hq : WellFlagged q) :
    WellFlagged (p.1 ++ q.1, p.2 || q.2) := by
  unfold WellFlagged at *
  simp only [Bool.or_eq_true, List.mem_append, hp, hq, or_and_right, exists_or]

theorem check_one_wf (row : Nat) (fname : String) (rb : Option String)
    (vals : List Val) (eb : Option String) (v : Val) :
    WellFlagged (check_one row fname rb vals eb v) ∧
      LogEvent.infoSuccess ∉ (check_one row fname rb vals eb v).1 := by
  unfold WellFlagged check_one
  split_ifs <;> simp [isCountedError]

theorem base_part_wf (item : CheckItem) (pack : RefPack) :
    WellFlagged (base_part item pack) ∧
      LogEvent.infoSuccess ∉ (base_part item pack).1 := by
  unfold WellFlagged base_part
  rcases item.base with _ | b <;> rcases pack.base with _ | rb <;>
    simp [isCountedError]
  split_ifs <;> simp [isCountedError]

theorem check_part_wf (item : CheckItem) (pack : RefPack) :
    WellFlagged (check_part item pack) ∧
      LogEvent.infoSuccess ∉ (check_part item pack).1 := by
  unfold check_part
  split_ifs with h1 h2
  · exact check_one_wf ..
  · cases hv : item.value with
    | vlist xs =>
      have main : ∀ (ys : List Val) (st : List LogEvent × Bool),
          WellFlagged st → LogEvent.infoSuccess ∉ st.1 →
          WellFlagged (ys.foldl
            (fun (st : List LogEvent × Bool) ele =>
              let r := check_one item.excel_row item.field_name pack.base pack.values
                (pyOrStr item.base pack.base) ele
              (st.1 ++ r.1, st.2 || r.2)) st) ∧
          LogEvent.infoSuccess ∉ (ys.foldl
            (fun (st : List LogEvent × Bool) ele =>
              let r := check_one item.excel_row item.field_name pack.base pack.values
                (pyOrStr item.base pack.base) ele
              (st.1 ++ r.1, st.2 || r.2)) st).1 := by
        intro ys
        induction ys with
        | nil => intro st h1 h2; exact ⟨h1, h2⟩
        | cons y ys ih =>
          intro st hst hns
          simp only [List.foldl_cons]
          refine ih _ (wellFlagged_append hst (check_one_wf ..).1) ?_
          simp only [List.mem_append, not_or]
          exact ⟨hns, (check_one_wf ..).2⟩
      exact main xs ([], false) (by unfold WellFlagged; simp) (by simp)
    | vnone => simp [isCountedError, WellFlagged]
    | vint i => simp [isCountedError, WellFlagged]
    | vbool b => simp [isCountedError, WellFlagged]
    | vstr s => simp [isCountedError, WellFlagged]
    | vdict d => simp [isCountedError, WellFlagged]
  · simp [WellFlagged]

theorem process_item_wf (lookup : String → Option String → Option RefPack)
    (item : CheckItem) :
    WellFlagged (process_item lookup item) ∧
      LogEvent.infoSuccess ∉ (process_item lookup item).1 := by
  unfold process_item
  cases lookup item.ref_sheet item.ref_field with
  | none => constructor <;> simp [WellFlagged, isCountedError]
  | some pack =>
    refine ⟨wellFlagged_append (base_part_wf ..).1 (check_part_wf ..).1, ?_⟩
    simp only [List.mem_append, not_or]
    exact ⟨(base_part_wf ..).2, (check_part_wf ..).2⟩

/-- C5 (amended): `run_checks` logs the summary success line iff the
pending queue is non-empty and the run produced none of the two
flag-setting error kinds (missing reference value, declared-vs-target
base-type mismatch).  The other two error lines it can emit — a per-value
type mismatch and a non-list value for a list declaration — do not
suppress the success line. -/
theorem run_checks_success_iff (pending : List CheckItem)
    (lookup : String → Option String → Option RefPack) :
    (LogEvent.infoSuccess ∈ run_checks pending lookup) ↔
      (pending ≠ [] ∧ ∀ e ∈ run_checks pending lookup, isCountedError e = false) := by
  unfold run_checks
  by_cases hp : pending.isEmpty
  · have : pending = [] := by simpa using hp
    simp [this]
  · have hpne : pending ≠ [] := by simpa using hp
    simp only [hp, Bool.false_eq_true, if_false]
    set results := pending.map (process_item lookup) with hres
    set events := (results.map Prod.fst).flatten with hev
    have hwf : ∀ p ∈ results, WellFlagged p ∧ LogEvent.infoSuccess ∉ p.1 := by
      intro p hpmem
      obtain ⟨item, _, rfl⟩ := List.mem_map.mp hpmem
      exact process_item_wf lookup item
    have hnos : LogEvent.infoSuccess ∉ events := by
      rw [hev]
      intro hmem
      obtain ⟨l, hl, hin⟩ := List.mem_flatten.mp hmem
      obtain ⟨p, hpmem, rfl⟩ := List.mem_map.mp hl
      exact (hwf p hpmem).2 hin
    have hiff : results.any Prod.snd = true ↔ ∃ e ∈ events, isCountedError e = true := by
      constructor
      · intro hany
        obtain ⟨p, hpmem, hp2⟩ := List.any_eq_true.mp hany
        obtain ⟨e, hein, hec⟩ := ((hwf p hpmem).1).mp hp2
        refine ⟨e, ?_, hec⟩
        rw [hev]
        exact List.mem_flatten.mpr ⟨p.1, List.mem_map.mpr ⟨p, hpmem, rfl⟩, hein⟩
      · rintro ⟨e, hein, hec⟩
        rw [hev] at hein
        obtain ⟨l, hl, hin⟩ := List.mem_flatten.mp hein
        obtain ⟨p, hpmem, rfl⟩ := List.mem_map.mp hl
        exact List.any_eq_true.mpr ⟨p, hpmem, ((hwf p hpmem).1).mpr ⟨e, hin, hec⟩⟩
    by_cases hany : results.any Prod.snd
    · obtain ⟨e, hein, hec⟩ := hiff.mp hany
      simp only [hany, if_true, List.append_nil]
      constructor
      · intro hmem; exact absurd hmem hnos
      · rintro ⟨-, hall⟩
        have := hall e hein
        rw [hec] at this
        cases this
    · simp only [hany, Bool.false_eq_true, if_false]
      constructor
      · intro _
        refine ⟨hpne, ?_⟩
        intro e hmem
        rcases List.mem_append.mp hmem with hin | hin
        · by_contra hc
          have hec : isCountedError e = true := by
            cases hic : isCountedError e
            · exact absurd hic hc
            · rfl
          exact hany (hiff.mpr ⟨e, hin, hec⟩)
        · have : e = LogEvent.infoSuccess := by simpa using hin
          rw [this]; rfl
      · intro _
        simp

/-! ## Recursive value conversion (parsing/data_processing.py)

`_convert_with_check`, `_convert_list` and `_convert_dict` recurse on
substrings of the type annotation.  The embedding makes the recursion
structural on an explicit fuel argument; the source recursion strictly
shrinks the type string, so any fuel at least the type-string length
behaves identically (the fuel-exhausted branch is unreachable then), and
concrete evaluations below use ample fuel.  Warnings from the lenient
range check do not affect returned values and are not tracked here. -/

/-- `_parse_bool`. -/
def parse_bool (x : Val) : Bool :=
  if x = Val.vnone then false
  else if (match x with | .vstr s => pyStrip s == "" | _ => false) then false
  else
    let s := pyLower (pyStrip (pyStr x))
    if s = "1" ∨ s = "true" then true
    else if s = "0" ∨ s = "false" then false
    else false

/-- Model of `re.search` of an open parenthesis, a greedy dot-star group
and a closing parenthesis: the text between the first opening parenthesis
and the last closing one after it (type annotations are single-line, so
the dot-excludes-newline subtlety cannot fire). -/
def extractParens (s : String) : Option String :=
  let cs := s.data
  let pre := cs.takeWhile (fun c => c ≠ '(')
  if pre.length = cs.length then none
  else
    let rest := cs.drop (pre.length + 1)
    let tailAfter := rest.reverse.takeWhile (fun c => c ≠ ')')
    if tailAfter.length = rest.length then none
    else some (String.mk ((rest.reverse.drop (tailAfter.length + 1)).reverse))

/-- Python `split(",")` (keeps empty segments). -/
def splitComma : List Char → List (List Char)
  | [] => [[]]
  | ',' :: rest => [] :: splitComma rest
  | c :: rest =>
    match splitComma rest with
    | [] => [[c]]
    | g :: gs => (c :: g) :: gs

/-- Python `split(":", 1)` when a colon is present: the text before the
first colon and the text after it. -/
def splitFirstColon (cs : List Char) : List Char × List Char :=
  (cs.takeWhile (fun c => c ≠ ':'), (cs.dropWhile (fun c => c ≠ ':')).drop 1)

/-- Python `str.splitlines()` for newline/carriage-return separators. -/
def splitlinesAux : List Char → List Char → List (List Char)
  | [], cur => if cur = [] then [] else [cur]
  | '\r' :: '\n' :: rest, cur => cur :: splitlinesAux rest []
  | '\r' :: rest, cur => cur :: splitlinesAux rest []
  | '\n' :: rest, cur => cur :: splitlinesAux rest []
  | c :: rest, cur => splitlinesAux rest (cur ++ [c])

/-- Python `str.splitlines()`. -/
def pySplitlines (s : String) : List String :=
  (splitlinesAux s.data []).map String.mk

/-- Python dict assignment `result[k] = v`: overwrite in place, append
when absent. -/
def pyDictInsert (d : List (Val × Val)) (k v : Val) : List (Val × Val) :=
  match d with
  | [] => [(k, v)]
  | (k', v') :: rest =>
    if k' = k then (k', v) :: rest
    else (k', v') :: pyDictInsert rest k v

/-- Dict lookup on the model of a Python dict. -/
def dictLookup (d : List (Val × Val)) (k : Val) : Option Val :=
  match d with
  | [] => none
  | (k', v') :: rest => if k' = k then some v' else dictLookup rest k

/-- `EnumRegistry.validate_enum_item_name`: a valid identifier starting
with an uppercase letter. -/
def validate_enum_item_name (item : String) : Bool :=
  (item ≠ "") && is_valid_csharp_ident item &&
    (match item.data with | c :: _ => c.isUpper | [] => false)

/-- `EnumRegistry.get_enum_value` (None models the raised lookup error). -/
def get_enum_value (reg : EnumRegistry) (enum_name item : String) : Option Int :=
  match (reg.itemsOf enum_name).find? (fun p => p.1 = item) with
  | some p => some p.2
  | none => none

/-- `_convert_enum`: unknown enum type, empty value, bad item-name format
and unknown item all raise; a known item yields its integer value. -/
def convert_enum (reg : EnumRegistry) (enum_name : String) (value : Val) :
    Except String Val :=
  if ¬ reg.has_enum enum_name then .error "enum type not defined"
  else if (value == Val.vnone || (match value with | .vstr s => pyStrip s == "" | _ => false)) then
    .error "enum field does not allow an empty value"
  else
    let item := pyStrip (pyStr value)
    if ¬ validate_enum_item_name item then .error "enum item name must be UpperCamelCase"
    else
      match get_enum_value reg enum_name item with
      | some ev => .ok (.vint ev)
      | none => .error "enum item not found"

/-- Membership in `PRIMITIVE_TYPE_MAPPING`. -/
def isPrimitiveType (t : String) : Bool :=
  t = "int" || t = "float" || t = "bool" || t = "str" || t = "string"

/-- Applying `PRIMITIVE_TYPE_MAPPING[t]` to a value (float cells occur in
no claim and are left out of the value model). -/
def applyPrimitive (t : String) (value : Val) : Except String Val :=
  if t = "int" then
    match pyInt value with
    | some i => .ok (.vint i)
    | none => .error "int() failed"
  else if t = "float" then .error "float values are outside this model"
  else if t = "bool" then .ok (.vbool (parse_bool value))
  else if t = "str" ∨ t = "string" then .ok (.vstr (pyStr value))
  else .error "not a primitive type"

/-- `PRIMITIVE_TYPE_MAPPING.get(key_type_str, str)` applied to a dict key
(the default converter is `str`). -/
def primitiveKeyConv (kt : String) (key : String) : Except String Val :=
  if kt = "int" then
    match pyIntOfStr key with
    | some i => .ok (.vint i)
    | none => .error "int() failed on dict key"
  else if kt = "float" then .error "float dict keys are outside this model"
  else if kt = "bool" then .ok (.vbool (parse_bool (.vstr key)))
  else .ok (.vstr key)

mutual

/-- `_convert_with_check`: primitives, list, dict, enum, passthrough. -/
def convert_with_check (reg : EnumRegistry) : Nat → String → Val → Except String Val
  | 0, _, _ => .error "recursion fuel exhausted"
  | fuel + 1, type_str0, value =>
    let t := pyStrip type_str0
    if isPrimitiveType t then applyPrimitive t value
    else if "list".data.isPrefixOf t.data then convert_list reg fuel t value
    else if "dict".data.isPrefixOf t.data then convert_dict reg fuel t value
    else
      match matchEnum t with
      | some enum_name => convert_enum reg enum_name value
      | none => .ok value

/-- `_convert_list`: no parenthesised element type or a None value give
the empty list; a string is split on commas with empty segments skipped;
any other single value is wrapped as a one-element list. -/
def convert_list (reg : EnumRegistry) : Nat → String → Val → Except String Val
  | 0, _, _ => .error "recursion fuel exhausted"
  | fuel + 1, type_str, value =>
    match extractParens type_str with
    | none => .ok (.vlist [])
    | some inner =>
      if value = Val.vnone then .ok (.vlist [])
      else
        let et := pyStrip inner
        match value with
        | .vstr s =>
          ((splitComma s.data).map (fun cs => String.mk (stripChars cs))
            |>.foldlM
              (fun (acc : List Val) v =>
                if v = "" then pure acc
                else do
                  let x ← convert_with_check reg fuel et (.vstr v)
                  pure (acc ++ [x]))
              []).map .vlist
        | v =>
          match convert_with_check reg fuel et v with
          | .ok x => .ok (.vlist [x])
          | .error e => .error ("cannot convert value to list: " ++ e)

/-- `_convert_dict`: no parenthesised types or a None value give the
empty dict; otherwise the annotation must hold exactly two comma-separated
types, and each colon-bearing line of the value contributes one converted
key/value pair through Python dict assignment (a repeated key overwrites
the stored value). -/
def convert_dict (reg : EnumRegistry) : Nat → String → Val → Except String Val
  | 0, _, _ => .error "recursion fuel exhausted"
  | fuel + 1, type_str, value =>
    match extractParens type_str with
    | none => .ok (.vdict [])
    | some inner =>
      if value = Val.vnone then .ok (.vdict [])
      else
        match (splitComma inner.data).map (fun cs => String.mk (stripChars cs)) with
        | [key_type_str, value_type_str] =>
          ((pySplitlines (pyStr value)).foldlM
              (fun (d : List (Val × Val)) (line : String) =>
                if line.data.contains ':' then do
                  let kv := splitFirstColon line.data
                  let k ← primitiveKeyConv key_type_str (String.mk (stripChars kv.1))
                  let v ← convert_with_check reg fuel value_type_str
                    (.vstr (String.mk (stripChars kv.2)))
                  pure (pyDictInsert d k v)
                else pure d)
              []).map .vdict
        | _ => .error "dict annotation must unpack into exactly two types"

end

/-- C10: a dict-typed cell whose two colon-bearing lines have keys 1 and
01 — both converting to the int key 1 — yields the single-entry mapping
holding the later value b (one entry, two colon lines), and in general a
Python dict assignment makes the last inserted value win for its key. -/
theorem convert_dict_last_wins :
    convert_dict ⟨[], [], []⟩ 32 "dict(int,string)" (Val.vstr "1:a\n01:b") =
      .ok (.vdict [(Val.vint 1, Val.vstr "b")]) ∧
    (pySplitlines "1:a\n01:b").countP (fun l => l.data.contains ':') = 2 ∧
    (∀ (d : List (Val × Val)) (k v : Val), dictLookup (pyDictInsert d k v) k = some v) := by
  refine ⟨by decide, by decide, ?_⟩
  intro d k v
  induction d with
  | nil => simp [pyDictInsert, dictLookup]
  | cons p rest ih =>
    obtain ⟨k', v'⟩ := p
    by_cases h : k' = k
    · simp [pyDictInsert, dictLookup, h]
    · simp [pyDictInsert, dictLookup, h, ih]

end SheetEase
